import Mathlib

/-!
Verification development for the abyss-base embedded data store
(Rust sources: src/lib.rs, src/crud/{make,c,r,u,d}.rs).

Modelling conventions of this shallow embedding:
* Rust `HashMap` values are modelled as association lists
  (`List (String × _)`) with deterministic iteration order standing in
  for the map's unspecified order; `insertA` replaces in place or
  appends, `removeA` removes the first binding, mirroring keyed-map
  semantics.
* `f64` payloads are modelled as `Int` (exact numeric values; NaN and
  rounding are outside the scope of every claim treated here).
* The JSON codec is the spec's external stable wire codec: a shard
  file's state is `parsed m` (decodes to the map `m`), `corrupt`
  (reads but does not decode) or `unreadable` (read fails); writing a
  map stores `parsed m`.
* The SHA-256 collaborator is an abstract byte function
  `sha : String → List Nat`; the regex collaborator is an abstract
  compiler `rex : String → Option (String → Bool)` (`none` = the
  pattern does not compile).
* A table's directory listing is `DbState := List (String × FileContent)`
  (filename → content), the order standing in for `fs::read_dir` order.
* Rust functions that panic (the `Data` accessors) are modelled with an
  `Option`/error result marking the panic, as the spec directs for
  value accessors.
-/

/-- The `Type` enum of crud/make.rs (renamed: `Type` is not a Lean identifier). -/
inductive Ty where
  | NULL
  | STRING
  | NUMBER
  | ARRAY
  | HASHMAP
  | BOOLEAN
  | JSON
  | HASHSET
  | TABLE
  | STRINGNULL
  | NUMBERNULL
  | ARRAYNULL
  | HASHMAPNULL
  | BOOLEANNULL
  | JSONNULL
  | HASHSETNULL
  | TABLENULL
  deriving DecidableEq, Repr

/-- The `Data` enum of crud/make.rs (tagged runtime value). -/
inductive Data where
  | NULL
  | STRING (s : String)
  | NUMBER (n : Int)
  | ARRAY (xs : List Data)
  | BOOLEAN (b : Bool)
  | JSON (s : String)
  | STRINGNULL (s : Option String)
  | NUMBERNULL (n : Option Int)
  | ARRAYNULL (xs : Option (List Data))
  | BOOLEANNULL (b : Option Bool)
  | JSONNULL (s : Option String)
  deriving Repr

/-- `Data::get_string` (crud/make.rs): `STRING` and `NUMBER` yield a string,
every other variant panics (modelled as `none`). -/
def Data.get_string : Data → Option String
  | .STRING x => some x
  | .NUMBER x => some (toString x)
  | _ => none

/-- The discriminant of a `Data` value (`std::mem::discriminant`). -/
def discrTag : Data → Nat
  | .NULL => 0
  | .STRING _ => 1
  | .NUMBER _ => 2
  | .ARRAY _ => 3
  | .BOOLEAN _ => 4
  | .JSON _ => 5
  | .STRINGNULL _ => 6
  | .NUMBERNULL _ => 7
  | .ARRAYNULL _ => 8
  | .BOOLEANNULL _ => 9
  | .JSONNULL _ => 10

/-- `data_eq` (crud/make.rs): discriminant comparison. -/
def data_eq (x y : Data) : Bool := discrTag x == discrTag y

/-- The tag of a `Data` value as a `Ty`, as computed inside `data_eq_type`. -/
def dataTy : Data → Ty
  | .NULL => .NULL
  | .STRING _ => .STRING
  | .NUMBER _ => .NUMBER
  | .ARRAY _ => .ARRAY
  | .BOOLEAN _ => .BOOLEAN
  | .JSON _ => .JSON
  | .STRINGNULL _ => .STRINGNULL
  | .NUMBERNULL _ => .NUMBERNULL
  | .ARRAYNULL _ => .ARRAYNULL
  | .BOOLEANNULL _ => .BOOLEANNULL
  | .JSONNULL _ => .JSONNULL

/-- `data_eq_type` (crud/make.rs). -/
def data_eq_type (x : Data) (y : Ty) : Bool := dataTy x == y

/-- Lexicographic strict order on character lists. -/
def charListLt : List Char → List Char → Bool
  | [], [] => false
  | [], _ :: _ => true
  | _ :: _, [] => false
  | a :: xs, b :: ys => if a < b then true else if b < a then false else charListLt xs ys

/-- Rust `String` strict order: lexicographic (byte order = code-point
order for valid UTF-8). -/
def strLtB (a b : String) : Bool := charListLt a.data b.data

/-- Rust `String::cmp`: the total order induced by `strLtB`. -/
def strCompare (a b : String) : Ordering :=
  if strLtB a b then .lt else if strLtB b a then .gt else .eq

/-- Rust `bool::cmp`: `false < true`. -/
def boolCompare (a b : Bool) : Ordering :=
  if a = b then .eq else if a then .gt else .lt

/-- Rust `Option::cmp` / total `partial_cmp`: `None` precedes `Some`,
payloads compared by `f`. -/
def optCompare (f : α → α → Ordering) : Option α → Option α → Ordering
  | none, none => .eq
  | none, some _ => .lt
  | some _, none => .gt
  | some a, some b => f a b

mutual

/-- The per-variant arms of `impl PartialEq for Data` (crud/r.rs), reached
after the `data_eq` discriminant guard (see `dataEqB`). -/
def dataEqCore : Data → Data → Bool
  | .NULL, .NULL => true
  | .STRING i, .STRING j => i == j
  | .NUMBER i, .NUMBER j => i == j
  | .ARRAY i, .ARRAY j => listEqB i j
  | .BOOLEAN i, .BOOLEAN j => i == j
  | .JSON i, .JSON j => i == j
  | .STRINGNULL i, .STRINGNULL j => i == j
  | .NUMBERNULL i, .NUMBERNULL j => i == j
  | .ARRAYNULL i, .ARRAYNULL j => optListEqB i j
  | .BOOLEANNULL i, .BOOLEANNULL j => i == j
  | .JSONNULL i, .JSONNULL j => i == j
  | _, _ => false

/-- `Vec<Data>` equality: element-wise `Data::eq` (discriminant guard then
`dataEqCore`, matching `impl PartialEq for Data`). -/
def listEqB : List Data → List Data → Bool
  | [], [] => true
  | a :: xs, b :: ys =>
    (if discrTag a ≠ discrTag b then false else dataEqCore a b) && listEqB xs ys
  | _, _ => false

/-- `Option<Vec<Data>>` equality. -/
def optListEqB : Option (List Data) → Option (List Data) → Bool
  | none, none => true
  | some a, some b => listEqB a b
  | _, _ => false

end

/-- `impl PartialEq for Data` (crud/r.rs): false across discriminants,
then the per-variant comparison. -/
def dataEqB (x y : Data) : Bool :=
  if discrTag x ≠ discrTag y then false else dataEqCore x y

mutual

/-- The match arms of `impl PartialOrd for Data` (crud/u.rs), reached after
the discriminant guard. Every arm compares the arguments SWAPPED
(`j.cmp(i)` / `j.partial_cmp(i)` where `self` carries `i`): the source's
inverted order, preserved verbatim here. -/
def dataCmpCore : Data → Data → Option Ordering
  | .NULL, .NULL => none
  | .STRING i, .STRING j => some (strCompare j i)
  | .NUMBER i, .NUMBER j => some (compare j i)
  | .ARRAY i, .ARRAY j => listCmp j i
  | .BOOLEAN i, .BOOLEAN j => some (boolCompare j i)
  | .JSON i, .JSON j => some (strCompare j i)
  | .STRINGNULL i, .STRINGNULL j => some (optCompare strCompare j i)
  | .NUMBERNULL i, .NUMBERNULL j => some (optCompare compare j i)
  | .ARRAYNULL i, .ARRAYNULL j => optListCmp j i
  | .BOOLEANNULL i, .BOOLEANNULL j => some (optCompare boolCompare j i)
  | .JSONNULL i, .JSONNULL j => some (optCompare strCompare j i)
  | _, _ => none
termination_by x y => sizeOf x + sizeOf y
decreasing_by all_goals (simp_wf; omega)

/-- `Vec<Data>` lexicographic `partial_cmp`, element-wise through
`Data::partial_cmp` (discriminant guard then `dataCmpCore`). -/
def listCmp : List Data → List Data → Option Ordering
  | [], [] => some .eq
  | [], _ :: _ => some .lt
  | _ :: _, [] => some .gt
  | a :: xs, b :: ys =>
    match (if discrTag a ≠ discrTag b then none else dataCmpCore a b) with
    | some .eq => listCmp xs ys
    | r => r
termination_by x y => sizeOf x + sizeOf y
decreasing_by all_goals (simp_wf; omega)

/-- `Option<Vec<Data>>` `partial_cmp`: `None < Some`, payloads element-wise. -/
def optListCmp : Option (List Data) → Option (List Data) → Option Ordering
  | none, none => some .eq
  | none, some _ => some .lt
  | some _, none => some .gt
  | some a, some b => listCmp a b
termination_by x y => sizeOf x + sizeOf y
decreasing_by all_goals (simp_wf; omega)

end

/-- `impl PartialOrd for Data` (crud/u.rs): `None` across discriminants,
then the (inverted) per-variant comparison. -/
def dataCmp (x y : Data) : Option Ordering :=
  if discrTag x ≠ discrTag y then none else dataCmpCore x y

/-- The `CMP` enum of crud/u.rs. -/
inductive CMP where
  | EQUAL
  | LESS
  | LESSEQ
  | GREATER
  | GTEQ
  deriving DecidableEq, Repr

/-- `CMP::calculate` (crud/u.rs): dispatches to the `PartialEq`/`PartialOrd`
operators of `Data` (`x < y` means `partial_cmp(x, y) == Some(Less)`, etc.). -/
def CMP.calculate : CMP → Data → Data → Bool
  | .EQUAL, x, y => dataEqB x y
  | .LESS, x, y => dataCmp x y == some .lt
  | .LESSEQ, x, y => dataCmp x y == some .lt || dataCmp x y == some .eq
  | .GREATER, x, y => dataCmp x y == some .gt
  | .GTEQ, x, y => dataCmp x y == some .gt || dataCmp x y == some .eq

/-! ## Association-list primitives standing in for `HashMap` -/

/-- `HashMap::get`. -/
def lookupA {α : Type} : List (String × α) → String → Option α
  | [], _ => none
  | (k, v) :: rest, key => if k = key then some v else lookupA rest key

/-- `HashMap::insert`: replace the binding in place, or append a new one. -/
def insertA {α : Type} : List (String × α) → String → α → List (String × α)
  | [], key, v => [(key, v)]
  | (k, w) :: rest, key, v =>
    if k = key then (key, v) :: rest else (k, w) :: insertA rest key v

/-- `HashMap::remove` (the binding, if present). -/
def removeA {α : Type} : List (String × α) → String → List (String × α)
  | [], _ => []
  | (k, w) :: rest, key => if k = key then rest else (k, w) :: removeA rest key

/-- `HashMap::contains_key`. -/
def containsA {α : Type} (m : List (String × α)) (key : String) : Bool :=
  (lookupA m key).isSome

/-! ## Data model of the storage layer -/

/-- A row: field name → (value, auxiliary string), the
`HashMap<String, (Data, String)>` of the source. -/
abbrev Row := List (String × (Data × String))

/-- A decoded shard file: numeric-id string → row. -/
abbrev ShardMap := List (String × Row)

/-- What one shard file holds, as seen through the JSON codec. -/
inductive FileContent where
  | unreadable
  | corrupt
  | parsed (m : ShardMap)

/-- One table's directory listing: filename → file content. -/
abbrev DbState := List (String × FileContent)

/-- The `TABLE` struct of crud/make.rs. -/
structure TABLE where
  name : String
  id_column : String
  field_names : List (String × (Ty × String))

/-- The table's schema file (`<table>-type.txt`), as seen by a reader. -/
inductive SchemaFile where
  | missing
  | corrupt
  | parsed (t : TABLE)

/-- The error taxonomy the eyre results of the source fall into. -/
inductive DbErr where
  | ioFail
  | parseFail
  | schemaMismatch
  | missingField (f : String)
  | conflict (id : String)
  | regexFailure
  | panicWrongVariant
  deriving DecidableEq, Repr

/-! ## Shard addressing -/

/-- Big-endian byte-list value, as `BigUint::from_bytes_be`. -/
def bytesToNat (bs : List Nat) : Nat := bs.foldl (fun acc b => acc * 256 + b) 0

/-- `DATABASE::string_to_numerical_uuid` (crud/c.rs): SHA-256, first
4 bytes big-endian, decimal string. Every CRUD path derives ids through
this method (`Self::string_to_numerical_uuid`). -/
def string_to_numerical_uuid (sha : String → List Nat) (input : String) : String :=
  Nat.repr (bytesToNat ((sha input).take 4))

/-- The free `string_to_numerical_uuid` of crud/make.rs: first 10 bytes.
It is not referenced by any CRUD path of the source. -/
def string_to_numerical_uuid_free (sha : String → List Nat) (input : String) : String :=
  Nat.repr (bytesToNat ((sha input).take 10))

/-- `get_shard_range_` (crud/c.rs): drop the last 7 characters
(`saturating_sub`), pad with `0000000` / `9999999`. -/
def get_shard_range_ (id : String) : String × String :=
  let base := String.mk (id.data.take (id.data.length - 7))
  (base ++ "0000000", base ++ "9999999")

/-- `get_shard_range` (crud/r.rs): same computation, duplicated in the
source. -/
def get_shard_range (id : String) : String × String :=
  let base := String.mk (id.data.take (id.data.length - 7))
  (base ++ "0000000", base ++ "9999999")

/-- The shard filename the insert path builds:
`format!("{}-{}.txt", start, end)` over `get_shard_range_`. -/
def shardFileName (id : String) : String :=
  let p := get_shard_range_ id
  p.1 ++ "-" ++ p.2 ++ ".txt"

/-- The shard filename the read path builds:
`format!("{}-{}.txt", start, end)` over `get_shard_range`. -/
def getByIdFilename (id : String) : String :=
  let p := get_shard_range id
  p.1 ++ "-" ++ p.2 ++ ".txt"

/-- `String::pop`: drop the last character. -/
def strPop (s : String) : String := String.mk s.data.dropLast

/-- `n` iterations of `String::pop`. -/
def popN : Nat → String → String
  | 0, s => s
  | n + 1, s => popN n (strPop s)

/-- `get_file_by_id` (crud/d.rs): pop 7 characters off two copies of the
id, then `format!("{}0000000-{}9999999.txt", start, end)`. -/
def get_file_by_id (id : String) : String :=
  let start := popN 7 id
  let stop := popN 7 id
  start ++ "0000000-" ++ stop ++ "9999999.txt"

/-! ## Storage engine: create path (crud/c.rs) -/

/-- The per-field loop of `check_type_regex` (crud/c.rs): hard error when a
schema field is absent from the row, `Ok(false)` on a tag or regex
mismatch (only `STRING` payloads are matched against a regex). -/
def check_fields (rex : String → Option (String → Bool)) (row : Row) :
    List (String × (Ty × String)) → Except DbErr Bool
  | [] => .ok true
  | (field_name, (expected, regexStr)) :: rest =>
    match lookupA row field_name with
    | none => .error (.missingField field_name)
    | some (d, _) =>
      if !data_eq_type d expected then .ok false
      else if regexStr = "" then check_fields rex row rest
      else
        match rex regexStr with
        | none => .error .regexFailure
        | some matcher =>
          match d with
          | .STRING s => if !matcher s then .ok false else check_fields rex row rest
          | _ => check_fields rex row rest

/-- `check_type_regex` (crud/c.rs): field-count check, then the per-field
loop. -/
def check_type_regex (rex : String → Option (String → Bool)) (row : Row)
    (types : TABLE) : Except DbErr Bool :=
  if row.length ≠ types.field_names.length then .ok false
  else check_fields rex row types.field_names

/-- `add_to_file` (crud/c.rs). A readable file whose JSON does not parse
falls back to the empty map (`unwrap_or_else`); an unreadable file is an
error; a present id with `overwrite == false` is a conflict and nothing is
written. Returns the map written on success. -/
def add_to_file (content : Option FileContent) (row : Row) (id : String)
    (overwrite : Bool) : Except DbErr ShardMap :=
  match content with
  | some .unreadable => .error .ioFail
  | c =>
    let data : ShardMap :=
      match c with
      | some (.parsed m) => m
      | _ => []
    if containsA data id && !overwrite then .error (.conflict id)
    else .ok (insertA data id row)

/-- `add_row` (crud/c.rs): load and parse the schema, validate the row,
derive id and shard filename, then `add_to_file`. The pair returned is
(result, table directory after the call): an error leaves the directory
as it was. -/
def add_row (sha : String → List Nat) (rex : String → Option (String → Bool))
    (schemaFile : SchemaFile) (st : DbState) (row : Row) (overwrite : Bool) :
    Except DbErr Unit × DbState :=
  match schemaFile with
  | .missing => (.error .ioFail, st)
  | .corrupt => (.error .parseFail, st)
  | .parsed table_schema =>
    match check_type_regex rex row table_schema with
    | .error e => (.error e, st)
    | .ok false => (.error .schemaMismatch, st)
    | .ok true =>
      match lookupA row table_schema.id_column with
      | none => (.error (.missingField table_schema.id_column), st)
      | some id_field =>
        match id_field.1.get_string with
        | none => (.error .panicWrongVariant, st)
        | some s =>
          let id := string_to_numerical_uuid sha s
          let filename := shardFileName id
          match add_to_file (lookupA st filename) row id overwrite with
          | .error e => (.error e, st)
          | .ok m => (.ok (), insertA st filename (.parsed m))

/-! ## Storage engine: read and delete paths (crud/r.rs, crud/d.rs) -/

/-- `get_by_id` (crud/r.rs): derive id and shard filename, open exactly
that file; a missing file, an unreadable file and a corrupt file all
yield `None` (`.ok()?`). -/
def get_by_id (sha : String → List Nat) (st : DbState) (id_input : String) :
    Option Row :=
  let id := string_to_numerical_uuid sha id_input
  let filename := getByIdFilename id
  match lookupA st filename with
  | none => none
  | some .unreadable => none
  | some .corrupt => none
  | some (.parsed m) => lookupA m id

/-- `delete_row_by_id` (crud/d.rs): derive id and filename
(`get_file_by_id`), remove the entry and persist only when it was
present; a missing, unreadable or corrupt file yields `None` and no
write. Returns (removed row, table directory after the call). -/
def delete_row_by_id (sha : String → List Nat) (st : DbState) (id_ : String) :
    Option Row × DbState :=
  let id := string_to_numerical_uuid sha id_
  let filename := get_file_by_id id
  match lookupA st filename with
  | none => (none, st)
  | some .unreadable => (none, st)
  | some .corrupt => (none, st)
  | some (.parsed m) =>
    match lookupA m id with
    | some got => (some got, insertA st filename (.parsed (removeA m id)))
    | none => (none, st)

/-! ## Query engine (lib.rs) -/

/-- The `Operator` enum of lib.rs. -/
inductive Operator where
  | Eq
  | Ne
  | Gt
  | Lt
  | Gte
  | Lte
  deriving DecidableEq, Repr

/-- The `LogicalOp` enum of lib.rs. -/
inductive LogicalOp where
  | And
  | Or
  deriving DecidableEq, Repr

/-- The `Condition` struct of lib.rs. -/
structure Condition where
  field : String
  op : Operator
  value : Data

/-- The query-relevant state of `QueryBuilder` (lib.rs); the `db`/`table`
handle is carried separately as the `DbState` each method scans. -/
structure QueryBuilder where
  conditions : List (LogicalOp × Condition)
  limit : Option Nat
  sort_field : Option String
  sort_ascending : Bool

/-- `QueryBuilder::compare` (lib.rs): the natural per-type order on
strings and numbers, false on any other pairing. -/
def QueryBuilder.compare (op : Operator) (left right : Data) : Bool :=
  match left, right with
  | .STRING a, .STRING b =>
    match op with
    | .Eq => a == b
    | .Ne => a != b
    | .Gt => strLtB b a
    | .Lt => strLtB a b
    | .Gte => !strLtB a b
    | .Lte => !strLtB b a
  | .NUMBER a, .NUMBER b =>
    match op with
    | .Eq => a == b
    | .Ne => a != b
    | .Gt => decide (b < a)
    | .Lt => decide (a < b)
    | .Gte => !decide (a < b)
    | .Lte => !decide (b < a)
  | _, _ => false

/-- `QueryBuilder::matches_all` (lib.rs): every accumulated condition must
hold — the `LogicalOp` component of each pair is discarded (`for (_, cond)`). -/
def QueryBuilder.matches_all (qb : QueryBuilder) (row : Row) : Bool :=
  qb.conditions.all fun p =>
    match lookupA row p.2.field with
    | some (val, _) => QueryBuilder.compare p.2.op val p.2.value
    | none => false

/-- The sort comparator of `QueryBuilder::execute` (lib.rs): numbers
numerically, strings lexicographically, anything else `Equal`; reversed
when descending. -/
def rowOrd (f : String) (asc : Bool) (a b : Row) : Ordering :=
  let o : Ordering :=
    match lookupA a f, lookupA b f with
    | some (.NUMBER x, _), some (.NUMBER y, _) => compare x y
    | some (.STRING x, _), some (.STRING y, _) => strCompare x y
    | _, _ => .eq
  if asc then o else o.swap

/-- Stable insertion step for `sortRows`. -/
def insertSorted (f : String) (asc : Bool) (x : Row) : List Row → List Row
  | [] => [x]
  | y :: ys =>
    if rowOrd f asc x y = .gt then y :: insertSorted f asc x ys else x :: y :: ys

/-- A stable sort by `rowOrd`, modelling `Vec::sort_by` (which is stable;
its exact output for the non-transitive mixed-type comparator is
unspecified in Rust, and no claim below depends on it). -/
def sortRows (f : String) (asc : Bool) : List Row → List Row
  | [] => []
  | x :: xs => insertSorted f asc x (sortRows f asc xs)

/-- `QueryBuilder::execute` (lib.rs): scan every file of the table's
directory, skip unreadable/corrupt ones, keep rows passing
`matches_all`, then sort (if requested) and truncate (if limited). -/
def execute (qb : QueryBuilder) (st : DbState) : List Row :=
  let results := st.flatMap fun p =>
    match p.2 with
    | .unreadable => []
    | .corrupt => []
    | .parsed m => (m.filter fun e => qb.matches_all e.2).map (·.2)
  let sorted :=
    match qb.sort_field with
    | none => results
    | some f => sortRows f qb.sort_ascending results
  match qb.limit with
  | none => sorted
  | some mx => sorted.take mx

/-- `DATABASE::get_table` (crud/make.rs): merge every shard file into one
id-keyed map; any unreadable or corrupt file makes the whole call `None`
(`.ok()?`). -/
def get_table_go (acc : ShardMap) : DbState → Option ShardMap
  | [] => some acc
  | (_, .unreadable) :: _ => none
  | (_, .corrupt) :: _ => none
  | (_, .parsed m) :: rest =>
    get_table_go (m.foldl (fun a e => insertA a e.1 e.2) acc) rest

/-- `DATABASE::get_table` over a table's directory listing. -/
def get_table (st : DbState) : Option ShardMap := get_table_go [] st

/-- `QueryBuilder::select` (lib.rs): `get_table` (empty on failure,
`unwrap_or_default`), filter by `matches_all`, keep the rows. No sort,
no limit. -/
def select (qb : QueryBuilder) (st : DbState) : List Row :=
  (((get_table st).getD []).filter fun e => qb.matches_all e.2).map (·.2)

/-! ## delete_row_where (crud/d.rs) -/

/-- The `keys_to_remove` computation of `delete_row_where`: ids of rows
whose `fieldname` entry satisfies `cmp.calculate(fieldvalue, value)`. -/
def keysToRemove (fieldname : String) (fieldvalue : Data) (cmp : CMP)
    (m : ShardMap) : List String :=
  (m.filter fun e =>
    match lookupA e.2 fieldname with
    | some (val, _) => cmp.calculate fieldvalue val
    | none => false).map (·.1)

/-- The removal loop of `delete_row_where` on one decoded shard:
`multi == true` removes every collected key, `multi == false` removes the
first collected key and breaks (the break leaves the per-file loop only). -/
def removeKeys (multi : Bool) (m : ShardMap) : List String → ShardMap
  | [] => m
  | k :: rest => if multi then removeKeys multi (removeA m k) rest else removeA m k

/-- `delete_row_where` (crud/d.rs) on one file of the directory:
unreadable and corrupt files are skipped (`continue`), a file with no
matching key is not rewritten, otherwise the shrunken map is written. -/
def delete_row_where_file (fieldname : String) (fieldvalue : Data)
    (multi : Bool) (cmp : CMP) (c : FileContent) : FileContent :=
  match c with
  | .unreadable => .unreadable
  | .corrupt => .corrupt
  | .parsed m =>
    match keysToRemove fieldname fieldvalue cmp m with
    | [] => .parsed m
    | k :: rest => .parsed (removeKeys multi m (k :: rest))

/-- `delete_row_where` (crud/d.rs): the per-file pass over every entry of
the table's directory. The outer loop never returns early: after a
removal with `multi == false` the scan still continues with the next
file. -/
def delete_row_where (st : DbState) (fieldname : String) (fieldvalue : Data)
    (multi : Bool) (cmp : CMP) : DbState :=
  st.map fun p => (p.1, delete_row_where_file fieldname fieldvalue multi cmp p.2)

/-! ## Migration runner (crud/u.rs) -/

/-- One migration descriptor file, its application outcome abstracted:
`succeeds` is whether `apply_migration` on its parsed content returns
`Ok` (the operation's filesystem effects happen exactly when it does).
The file-read and JSON-parse failures of the loop body abort the run the
same way a failing apply does, so they are covered by `succeeds = false`. -/
structure MigFile where
  name : String
  succeeds : Bool

/-- Stable insertion step for `sortMigs`. -/
def insertMigSorted (x : MigFile) : List MigFile → List MigFile
  | [] => [x]
  | y :: ys => if strLtB y.name x.name then y :: insertMigSorted x ys else x :: y :: ys

/-- `migrations.sort_by_key(|e| e.path())`. -/
def sortMigs : List MigFile → List MigFile
  | [] => []
  | x :: xs => insertMigSorted x (sortMigs xs)

/-- The migration loop of `apply_migrations` (crud/u.rs): skip names in
the applied ledger, apply the rest in order, collecting
`newly_applied`; a failing operation returns the error at once (`?`).
Also returns `executed`, the names whose filesystem effects completed
(identical to `newly_applied`, kept separate to state what a failed run
leaves behind on disk versus in the ledger). -/
def migLoop (applied : List String) :
    List MigFile → (List String × List String × Bool)
  | [] => ([], [], true)
  | f :: rest =>
    if applied.contains f.name then migLoop applied rest
    else if f.succeeds then
      match migLoop applied rest with
      | (ex, nw, ok) => (f.name :: ex, f.name :: nw, ok)
    else ([], [], false)

/-- `apply_migrations` (crud/u.rs): load the ledger, sort the migration
files, run the loop, and only after the whole loop — and only when it
succeeded with at least one new application — write the updated ledger
once. Returns (names whose effects completed, ledger content after the
run, whether the run returned `Ok`). -/
def apply_migrations (applied : List String) (files : List MigFile) :
    List String × List String × Bool :=
  match migLoop applied (sortMigs files) with
  | (ex, [], true) => (ex, applied, true)
  | (ex, nw, true) => (ex, applied ++ nw, true)
  | (ex, _, false) => (ex, applied, false)

/-! ## Helper lemmas on the association-list primitives -/

theorem lookupA_insertA_self {α : Type} (m : List (String × α)) (k : String) (v : α) :
    lookupA (insertA m k v) k = some v := by
  induction m with
  | nil => simp [insertA, lookupA]
  | cons p rest ih =>
    obtain ⟨q, w⟩ := p
    by_cases hk : q = k
    · simp [insertA, hk, lookupA]
    · simp [insertA, hk, lookupA, ih]

theorem insertA_of_not_mem {α : Type} (m : List (String × α)) (k : String) (v : α)
    (h : k ∉ m.map (·.1)) : insertA m k v = m ++ [(k, v)] := by
  induction m with
  | nil => simp [insertA]
  | cons p rest ih =>
    obtain ⟨q, w⟩ := p
    simp only [List.map_cons, List.mem_cons] at h
    push_neg at h
    simp [insertA, Ne.symm h.1, ih h.2]

theorem removeA_length {α : Type} (m : List (String × α)) (k : String) :
    m.length ≤ (removeA m k).length + 1 := by
  induction m with
  | nil => simp [removeA]
  | cons p rest ih =>
    obtain ⟨q, w⟩ := p
    by_cases hk : q = k
    · simp [removeA, hk]
    · simp only [removeA, hk, if_false, List.length_cons]
      omega

/-! ## Concrete collaborator instances used by closed statements -/

/-- A stand-in hash collaborator for concrete runs (constant digest). -/
def sha0 : String → List Nat := fun _ => [0, 0, 0, 0]

/-- A stand-in regex compiler for concrete runs (never consulted by the
empty patterns below). -/
def rex0 : String → Option (String → Bool) := fun _ => none

/-- Claim C1 evidence: with the owning shard file present but corrupt, the
point operations `get_by_id` and `delete_row_by_id` return `None` — the
same answer as for an absent row — and no error surfaces (their `Option`
results have no error channel at all). -/
theorem c1_corrupt_point_ops_return_none :
    get_by_id sha0 [("0000000-9999999.txt", .corrupt)] "x" = none ∧
    delete_row_by_id sha0 [("0000000-9999999.txt", .corrupt)] "x" =
      (none, [("0000000-9999999.txt", .corrupt)]) := by
  exact ⟨rfl, rfl⟩

/-- Claim C2 evidence: `matches_all` discards the `LogicalOp` of every
condition, so a condition attached with `or` constrains exactly like one
attached with `and`; concretely, a row satisfying only the OR-attached
predicate (`age == 30`, not `name == "alice"`) is not returned by
`execute`. -/
theorem c2_or_degrades_to_and :
    (∀ (c : Condition) (conds : List (LogicalOp × Condition)) (lim : Option Nat)
        (sf : Option String) (sa : Bool) (row : Row),
      QueryBuilder.matches_all ⟨(.Or, c) :: conds, lim, sf, sa⟩ row =
        QueryBuilder.matches_all ⟨(.And, c) :: conds, lim, sf, sa⟩ row) ∧
    execute
      ⟨[(.And, ⟨"name", .Eq, .STRING "alice"⟩), (.Or, ⟨"age", .Eq, .NUMBER 30⟩)],
        none, none, true⟩
      [("f", .parsed
        [("1", [("name", (.STRING "bob", "")), ("age", (.NUMBER 30, ""))])])] = [] := by
  exact ⟨fun _ _ _ _ _ _ => rfl, rfl⟩

/-- Claim C3 evidence: `"a"` strictly precedes `"b"` and `1 < 2`, yet
`CMP::LESS.calculate` is false and `CMP::GREATER.calculate` is true on
those pairs — the per-tag order the comparators expose is the reverse of
the natural one. -/
theorem c3_order_inverted :
    CMP.calculate .LESS (.STRING "a") (.STRING "b") = false ∧
    CMP.calculate .GREATER (.STRING "a") (.STRING "b") = true ∧
    CMP.calculate .LESS (.NUMBER 1) (.NUMBER 2) = false ∧
    CMP.calculate .GREATER (.NUMBER 1) (.NUMBER 2) = true ∧
    strLtB "a" "b" = true ∧ ((1 : Int) < 2) := by
  refine ⟨?_, ?_, ?_, ?_, by decide, by decide⟩ <;>
    simp [CMP.calculate, dataCmp, dataCmpCore, strCompare, strLtB, charListLt,
      discrTag, compare, compareOfLessAndEq] <;> decide

/-- Claim C5 evidence: with two pending migrations of which the first
succeeds and the second fails, the run executes the first operation's
effects but returns with the ledger file untouched — the completed
operation is not recorded as applied, so a re-run would replay it. -/
theorem c5_ledger_lost_on_failure :
    apply_migrations [] [⟨"001_a.json", true⟩, ⟨"002_b.json", false⟩] =
      (["001_a.json"], [], false) ∧
    "001_a.json" ∈ (apply_migrations [] [⟨"001_a.json", true⟩, ⟨"002_b.json", false⟩]).1 ∧
    "001_a.json" ∉ (apply_migrations [] [⟨"001_a.json", true⟩, ⟨"002_b.json", false⟩]).2.1 := by
  refine ⟨rfl, ?_, ?_⟩ <;> decide

/-! ## C9: shard addressing agreement -/

theorem strPop_eq (s : String) :
    strPop s = String.mk (s.data.take (s.data.length - 1)) := by
  simp [strPop, List.dropLast_eq_take]

theorem popN_eq (n : Nat) (s : String) :
    popN n s = String.mk (s.data.take (s.data.length - n)) := by
  induction n generalizing s with
  | zero => rw [popN, Nat.sub_zero, List.take_length]
  | succ n ih =>
    rw [popN, ih, strPop_eq]
    congr 1
    show (List.take (s.data.length - 1) s.data).take
        ((List.take (s.data.length - 1) s.data).length - n) =
      s.data.take (s.data.length - (n + 1))
    rw [List.length_take, List.take_take]
    congr 1
    omega

theorem shardFileName_eq_get_file_by_id (id : String) :
    shardFileName id = get_file_by_id id := by
  unfold shardFileName get_file_by_id get_shard_range_
  rw [popN_eq]
  apply String.ext
  simp only [String.data_append]
  simp only [List.append_assoc, List.cons_append, List.nil_append]

/-- Claim C9: every CRUD path derives the numeric id through the single
4-byte `string_to_numerical_uuid` method, and the three shard-filename
computations of the source (insert path over `get_shard_range_`, read
path over `get_shard_range`, delete path `get_file_by_id`) name the
identical owning shard file for every id string; consequently the read
and delete point operations inspect the same entry, so `get_by_id`
always returns exactly what `delete_row_by_id` removes. -/
theorem c9_single_shard_addressing :
    (∀ id : String, shardFileName id = getByIdFilename id) ∧
    (∀ id : String, getByIdFilename id = get_file_by_id id) ∧
    (∀ (sha : String → List Nat) (st : DbState) (raw : String),
      get_by_id sha st raw = (delete_row_by_id sha st raw).1) := by
  have h1 : ∀ id : String, shardFileName id = getByIdFilename id := fun _ => rfl
  have h2 : ∀ id : String, getByIdFilename id = get_file_by_id id := fun id => by
    rw [← h1 id]; exact shardFileName_eq_get_file_by_id id
  refine ⟨h1, h2, ?_⟩
  intro sha st raw
  simp only [get_by_id, delete_row_by_id]
  rw [show get_file_by_id (string_to_numerical_uuid sha raw) =
      getByIdFilename (string_to_numerical_uuid sha raw) from
    (h2 (string_to_numerical_uuid sha raw)).symm]
  cases h : lookupA st (getByIdFilename (string_to_numerical_uuid sha raw)) with
  | none => rfl
  | some c =>
    cases c with
    | unreadable => rfl
    | corrupt => rfl
    | parsed m =>
      cases hm : lookupA m (string_to_numerical_uuid sha raw) with
      | none => simp [hm]
      | some got => simp [hm]

/-! ## C6, C7, C10: insert-path theorems -/

theorem add_to_file_ok_shape (c : Option FileContent) (row : Row) (id : String)
    (ow : Bool) (m : ShardMap) (h : add_to_file c row id ow = .ok m) :
    ∃ base, m = insertA base id row := by
  cases c with
  | none =>
    simp only [add_to_file] at h
    split at h
    · simp at h
    · exact ⟨[], by injection h with h2; exact h2.symm⟩
  | some fc =>
    cases fc with
    | unreadable => simp [add_to_file] at h
    | corrupt =>
      simp only [add_to_file] at h
      split at h
      · simp at h
      · exact ⟨[], by injection h with h2; exact h2.symm⟩
    | parsed mm =>
      simp only [add_to_file] at h
      split at h
      · simp at h
      · exact ⟨mm, by injection h with h2; exact h2.symm⟩

/-- Claim C6: a row accepted by `add_row` is returned unchanged — every
field value and auxiliary string identical — by a subsequent `get_by_id`
with the row's raw id-column value. -/
theorem c6_roundtrip (sha : String → List Nat) (rex : String → Option (String → Bool))
    (ts : TABLE) (st st' : DbState) (row : Row) (v : Data) (aux raw : String) (ow : Bool)
    (hid : lookupA row ts.id_column = some (v, aux))
    (hstr : v.get_string = some raw)
    (hadd : add_row sha rex (.parsed ts) st row ow = (.ok (), st')) :
    get_by_id sha st' raw = some row := by
  simp only [add_row, hid, hstr] at hadd
  cases hck : check_type_regex rex row ts with
  | error e => rw [hck] at hadd; simp at hadd
  | ok b =>
    rw [hck] at hadd
    cases b with
    | false => simp at hadd
    | true =>
      simp only [] at hadd
      cases hat : add_to_file
          (lookupA st (shardFileName (string_to_numerical_uuid sha raw))) row
          (string_to_numerical_uuid sha raw) ow with
      | error e => rw [hat] at hadd; simp at hadd
      | ok m =>
        rw [hat] at hadd
        simp only [Prod.mk.injEq] at hadd
        obtain ⟨-, hst⟩ := hadd
        subst hst
        obtain ⟨base, rfl⟩ := add_to_file_ok_shape _ _ _ _ _ hat
        simp only [get_by_id]
        rw [show getByIdFilename (string_to_numerical_uuid sha raw) =
            shardFileName (string_to_numerical_uuid sha raw) from rfl]
        rw [lookupA_insertA_self]
        exact lookupA_insertA_self base (string_to_numerical_uuid sha raw) row

/-- Claim C7: when the owning shard already stores a row under the derived
id and `overwrite = false`, `add_row` returns the id conflict and the
table's directory — in particular that shard file's stored contents — is
exactly what it was before the call. -/
theorem c7_conflict_preserves (sha : String → List Nat)
    (rex : String → Option (String → Bool)) (ts : TABLE) (st : DbState) (row : Row)
    (v : Data) (aux raw : String) (m : ShardMap)
    (hck : check_type_regex rex row ts = .ok true)
    (hid : lookupA row ts.id_column = some (v, aux))
    (hstr : v.get_string = some raw)
    (hfile : lookupA st (shardFileName (string_to_numerical_uuid sha raw)) =
      some (.parsed m))
    (hdup : containsA m (string_to_numerical_uuid sha raw) = true) :
    add_row sha rex (.parsed ts) st row false =
      (.error (.conflict (string_to_numerical_uuid sha raw)), st) := by
  simp only [add_row, hck, hid, hstr, hfile, add_to_file, hdup]
  simp

/-- Claim C10: when the target shard file exists but its content does not
parse, `add_row` succeeds and rewrites the file to hold only the newly
inserted row. -/
theorem c10_corrupt_shard_rewritten (sha : String → List Nat)
    (rex : String → Option (String → Bool)) (ts : TABLE) (st : DbState) (row : Row)
    (v : Data) (aux raw : String) (ow : Bool)
    (hck : check_type_regex rex row ts = .ok true)
    (hid : lookupA row ts.id_column = some (v, aux))
    (hstr : v.get_string = some raw)
    (hfile : lookupA st (shardFileName (string_to_numerical_uuid sha raw)) =
      some .corrupt) :
    add_row sha rex (.parsed ts) st row ow =
      (.ok (), insertA st (shardFileName (string_to_numerical_uuid sha raw))
        (.parsed [(string_to_numerical_uuid sha raw, row)])) := by
  simp only [add_row, hck, hid, hstr, hfile, add_to_file, containsA, lookupA]
  simp [insertA]

/-! Concrete instances for the witnesses. -/

def ts0 : TABLE := ⟨"people", "id", [("id", (Ty.STRING, ""))]⟩

def row0 : Row := [("id", (Data.STRING "alice", "meta"))]

def m0 : ShardMap := [("0", [("id", (Data.STRING "bob", ""))])]

def stC7 : DbState := [("0000000-9999999.txt", FileContent.parsed m0)]

def stC10 : DbState := [("0000000-9999999.txt", FileContent.corrupt)]

theorem c6_roundtrip_witness :
    get_by_id sha0 (add_row sha0 rex0 (.parsed ts0) [] row0 false).2 "alice" =
      some row0 :=
  c6_roundtrip sha0 rex0 ts0 [] _ row0 (Data.STRING "alice") "meta" "alice" false
    rfl rfl rfl

theorem c7_conflict_witness :
    add_row sha0 rex0 (.parsed ts0) stC7 row0 false =
      (.error (.conflict (string_to_numerical_uuid sha0 "alice")), stC7) :=
  c7_conflict_preserves sha0 rex0 ts0 stC7 row0 (Data.STRING "alice") "meta" "alice"
    m0 rfl rfl rfl rfl rfl

theorem c10_corrupt_witness :
    add_row sha0 rex0 (.parsed ts0) stC10 row0 true =
      (.ok (), insertA stC10 (shardFileName (string_to_numerical_uuid sha0 "alice"))
        (.parsed [(string_to_numerical_uuid sha0 "alice", row0)])) :=
  c10_corrupt_shard_rewritten sha0 rex0 ts0 stC10 row0 (Data.STRING "alice") "meta"
    "alice" true rfl rfl rfl rfl

/-! ## C8: delete_row_where with multi = false -/

/-- How many rows a shard file stores. -/
def fcSize : FileContent → Nat
  | .parsed m => m.length
  | _ => 0

/-- Whether a shard file holds at least one row matching the predicate of
`delete_row_where`. -/
def fileHasMatch (fieldname : String) (fieldvalue : Data) (cmp : CMP) :
    FileContent → Bool
  | .parsed m => !(keysToRemove fieldname fieldvalue cmp m).isEmpty
  | _ => false

/-- Claim C8 counter-evidence: two shard files each holding one matching
row, `multi = false`: both files lose their row — two entries are removed
in total, not one. -/
theorem c8_counterexample_two_removed :
    delete_row_where
      [("a.txt", .parsed [("1", [("name", (.STRING "x", ""))])]),
       ("b.txt", .parsed [("2", [("name", (.STRING "x", ""))])])]
      "name" (.STRING "x") false .EQUAL =
      [("a.txt", .parsed []), ("b.txt", .parsed [])] := rfl

theorem removeA_length_of_mem {α : Type} (m : List (String × α)) (k : String)
    (h : k ∈ m.map (·.1)) : (removeA m k).length + 1 = m.length := by
  induction m with
  | nil => simp at h
  | cons p rest ih =>
    obtain ⟨q, w⟩ := p
    by_cases hk : q = k
    · simp [removeA, hk]
    · simp only [List.map_cons, List.mem_cons] at h
      rcases h with h | h
      · exact absurd h.symm hk
      · simp only [removeA, hk, if_false, List.length_cons]
        have := ih h
        omega

/-- Claim C8 (amended): with `multi = false` the stop is per shard file,
not global — every scanned file keeps its name, a file with no matching
row is left exactly as it was, and every file holding a match loses
exactly one entry (its first matching one); files scanned after the first
removal are still processed, as the concrete counterexample shows. -/
theorem c8_amended_per_file_stop (st : DbState) (f : String) (v : Data) (c : CMP) :
    List.Forall₂ (fun o n => o.1 = n.1 ∧ fcSize o.2 ≤ fcSize n.2 + 1 ∧
      (fileHasMatch f v c o.2 = false → n = o) ∧
      (fileHasMatch f v c o.2 = true → fcSize n.2 + 1 = fcSize o.2))
      st (delete_row_where st f v false c) := by
  induction st with
  | nil => simp [delete_row_where]
  | cons p rest ih =>
    obtain ⟨fn, pc⟩ := p
    simp only [delete_row_where, List.map_cons]
    constructor
    · refine ⟨rfl, ?_, ?_, ?_⟩
      · cases pc with
        | unreadable => simp [delete_row_where_file, fcSize]
        | corrupt => simp [delete_row_where_file, fcSize]
        | parsed m =>
          simp only [delete_row_where_file]
          cases hk : keysToRemove f v c m with
          | nil => simp [fcSize]
          | cons k rest2 =>
            simp only [removeKeys, if_neg, Bool.false_eq_true, not_false_iff, fcSize]
            exact removeA_length m k
      · intro hnm
        cases pc with
        | unreadable => simp [delete_row_where_file]
        | corrupt => simp [delete_row_where_file]
        | parsed m =>
          simp only [fileHasMatch, Bool.not_eq_false', List.isEmpty_iff] at hnm
          simp [delete_row_where_file, hnm]
      · intro hym
        cases pc with
        | unreadable => simp [fileHasMatch] at hym
        | corrupt => simp [fileHasMatch] at hym
        | parsed m =>
          cases hk : keysToRemove f v c m with
          | nil => simp [fileHasMatch, hk] at hym
          | cons k rest2 =>
            have hkm : k ∈ m.map (·.1) := by
              have hmem : k ∈ keysToRemove f v c m := by
                rw [hk]; exact List.mem_cons_self k rest2
              simp only [keysToRemove, List.mem_map] at hmem
              obtain ⟨e, he, rfl⟩ := hmem
              exact List.mem_map_of_mem _ (List.mem_of_mem_filter he)
            simp only [delete_row_where_file, hk, removeKeys, if_neg,
              Bool.false_eq_true, not_false_iff, fcSize]
            exact removeA_length_of_mem m k hkm
    · exact ih

/-! ## C4: select versus execute -/

def qbLim : QueryBuilder := ⟨[], some 1, none, true⟩

def stC4 : DbState :=
  [("f", .parsed [("1", [("id", (Data.STRING "1", ""))]),
                  ("2", [("id", (Data.STRING "2", ""))])])]

/-- Claim C4 counter-evidence: same table, same (empty) predicate set, a
limit of 1: `execute` returns one row, `select` returns both — `select`
never applies the builder's limit (nor its sort). -/
theorem c4_counterexample_limit :
    (execute qbLim stC4).length = 1 ∧ (select qbLim stC4).length = 2 :=
  ⟨rfl, rfl⟩

/-- The ids a shard file contributes to the table-wide merge. -/
def keysOfContent : FileContent → List String
  | .parsed m => m.map (·.1)
  | _ => []

/-- The entries a shard file contributes to the table-wide merge. -/
def rowsOfContent : FileContent → ShardMap
  | .parsed m => m
  | _ => []

theorem foldl_insertA_eq_append (m : ShardMap) (acc : ShardMap)
    (hnd : (m.map (·.1)).Nodup)
    (hfree : ∀ k ∈ m.map (·.1), k ∉ acc.map (·.1)) :
    m.foldl (fun a e => insertA a e.1 e.2) acc = acc ++ m := by
  induction m generalizing acc with
  | nil => simp
  | cons e m' ih =>
    simp only [List.map_cons, List.nodup_cons] at hnd
    simp only [List.foldl_cons]
    rw [insertA_of_not_mem acc e.1 e.2 (hfree e.1 (by simp))]
    have hfree' : ∀ k ∈ m'.map (·.1), k ∉ (acc ++ [(e.1, e.2)]).map (·.1) := by
      intro k hk hcontra
      simp only [List.map_append, List.mem_append, List.map_cons, List.map_nil] at hcontra
      rcases hcontra with hin | hin
      · exact hfree k (by simp [hk]) hin
      · have hke : k = e.1 := by simpa using hin
        exact hnd.1 (hke ▸ hk)
    rw [ih (acc ++ [(e.1, e.2)]) hnd.2 hfree']
    simp

theorem get_table_go_eq (st : DbState) (acc : ShardMap)
    (hok : ∀ p ∈ st, ∃ m, p.2 = FileContent.parsed m)
    (hnd : (acc.map (·.1) ++ st.flatMap fun p => keysOfContent p.2).Nodup) :
    get_table_go acc st = some (acc ++ st.flatMap fun p => rowsOfContent p.2) := by
  induction st generalizing acc with
  | nil => simp [get_table_go]
  | cons p rest ih =>
    obtain ⟨fn, pc⟩ := p
    obtain ⟨m, hm⟩ := hok (fn, pc) (by simp)
    simp only at hm
    subst hm
    simp only [get_table_go]
    simp only [List.flatMap_cons, keysOfContent] at hnd
    have h1 := List.nodup_append.mp hnd
    have h2 := List.nodup_append.mp h1.2.1
    rw [foldl_insertA_eq_append m acc h2.1
      (fun k hk hacc => h1.2.2 hacc (List.mem_append_left _ hk))]
    rw [ih (acc ++ m) (fun q hq => hok q (by simp [hq]))
      (by
        simp only [List.map_append, List.append_assoc]
        simp only [List.nodup_append] at hnd ⊢
        tauto)]
    simp [rowsOfContent]

theorem filter_map_flatMap_rows (g : String × Row → Bool) (st : DbState) :
    ((st.flatMap fun p => rowsOfContent p.2).filter g).map (·.2) =
      st.flatMap fun p =>
        match p.2 with
        | .unreadable => []
        | .corrupt => []
        | .parsed m => (m.filter g).map (·.2) := by
  induction st with
  | nil => rfl
  | cons p rest ih =>
    obtain ⟨fn, pc⟩ := p
    cases pc with
    | unreadable => simpa [rowsOfContent] using ih
    | corrupt => simpa [rowsOfContent] using ih
    | parsed m =>
      simp only [List.flatMap_cons, rowsOfContent, List.filter_append,
        List.map_append]
      congr 1

/-- Claim C4 (amended): when the builder carries no limit and no sort
spec, every shard file of the table parses, and no id occurs in two
shard entries, `select()` returns exactly the rows `execute()` returns. -/
theorem c4_amended_select_eq_execute (qb : QueryBuilder) (st : DbState)
    (hlim : qb.limit = none) (hsort : qb.sort_field = none)
    (hok : ∀ p ∈ st, ∃ m, p.2 = FileContent.parsed m)
    (hnd : (st.flatMap fun p => keysOfContent p.2).Nodup) :
    select qb st = execute qb st := by
  have hget := get_table_go_eq st [] hok (by simpa using hnd)
  simp only [select, get_table, hget, Option.getD_some, List.nil_append]
  simp only [execute, hlim, hsort]
  exact filter_map_flatMap_rows (fun e => qb.matches_all e.2) st

def qbPlain : QueryBuilder := ⟨[], none, none, true⟩

theorem c4_amended_witness :
    select qbPlain stC4 = execute qbPlain stC4 :=
  c4_amended_select_eq_execute qbPlain stC4 rfl rfl
    (by intro p hp; simp only [stC4, List.mem_singleton] at hp; exact ⟨_, by rw [hp]⟩)
    (by decide)
